import Mathlib

/-!
Verification of the provisioning pipeline of `webdriver-manager`
(`src/lib/cmds/initialize.ts`).

Strings are embedded as lists of characters (`Str`), hyphen splitting and
the architecture-variant regular-expression test are modelled directly from
the source, and the promise-based control flow is modelled with `Except`
together with explicit event lists / invocation traces.
-/

/-- Strings of the embedded program, as lists of characters. -/
abbrev Str := List Char

/-- ASCII digit test, matching the character class of digits 0 to 9. -/
def isDigitC (c : Char) : Bool := '0' ≤ c && c ≤ '9'

/-- ASCII lowercase-letter test, matching the character class a to z. -/
def isLowerC (c : Char) : Bool := 'a' ≤ c && c ≤ 'z'

/-- Does a match of the pattern `v` + digits + lowercase letters start at the
head of the list?  (The digit and letter classes are disjoint, so the greedy
reading of the pattern is exact.) -/
def vMatchAt : Str → Bool
  | [] => false
  | c :: rest =>
    c == 'v' &&
      !(rest.takeWhile isDigitC).isEmpty &&
      (match rest.dropWhile isDigitC with
       | [] => false
       | d :: _ => isLowerC d)

/-- JavaScript regular-expression `test` of the unanchored pattern
`v[0-9]+[a-z]+`: is there a match starting at some position of the list? -/
def containsV : Str → Bool
  | [] => false
  | c :: rest => vMatchAt (c :: rest) || containsV rest

/-- `String.prototype.split('-')`: split a string at every hyphen.  The
result is always nonempty; splitting the empty string gives one empty part. -/
def splitH : Str → List Str
  | [] => [[]]
  | c :: cs =>
    if c = '-' then [] :: splitH cs
    else (c :: (splitH cs).headD []) :: (splitH cs).tail

/-- The string a JavaScript out-of-bounds array read contributes when
concatenated into a string: the text of `undefined`. -/
def jsUndef : Str := "undefined".toList

/-- JavaScript array indexing as used in the name decoder: an in-range
index yields the element, an out-of-range one the `undefined` text. -/
def jsIndex (l : List Str) (i : Nat) : Str := (l[i]?).getD jsUndef

/-- Per-character uppercasing, modelling `String.prototype.toUpperCase`
on the ASCII strings the program uses. -/
def upperStr (x : Str) : Str := x.map Char.toUpper

/-- All the information about an android virtual device
(class `AVDDescriptor` of `initialize.ts`). -/
structure AVDDescriptor where
  api : Str
  platform : Str
  architecture : Str
  abi : Str
  name : Str
deriving DecidableEq

/-- The `abi` field derivation shared by both constructor branches:
`(this.platform.toUpperCase() == 'DEFAULT' ? '' : this.platform + '/') +
this.architecture`. -/
def mkAbi (platform architecture : Str) : Str :=
  if upperStr platform = "DEFAULT".toList then architecture
  else platform ++ '/' :: architecture

/-- The `AVDDescriptor` constructor branch taken when a platform is
supplied: fields are set directly and `name` is the hyphen-join
`[api, platform, architecture].join('-')`. -/
def avdFromComponents (api platform architecture : Str) : AVDDescriptor :=
  { api := api
    platform := platform
    architecture := architecture
    abi := mkAbi platform architecture
    name := api ++ '-' :: (platform ++ '-' :: architecture) }

/-- The `api` computed by the name-decoding constructor branch:
`nameParts[0] + '-' + nameParts[1]`. -/
def decodedApi (parts : List Str) : Str :=
  jsIndex parts 0 ++ '-' :: jsIndex parts 1

/-- The `architecture` computed by the name-decoding constructor branch.
The last hyphen token is the architecture, unless the regular expression
`v[0-9]+[a-z]+` tests true on it and the second-to-last token starts with
`arm`, in which case the last two tokens are rejoined.  When the split has
a single part and the regular-expression test succeeds, the JavaScript
code reads index `-1` (which is `undefined`) and calls `.slice` on it,
throwing a `TypeError`; that is the `none` case. -/
def decodedArch (parts : List Str) : Option Str :=
  if containsV (jsIndex parts (parts.length - 1)) then
    if 2 ≤ parts.length then
      some
        (if (jsIndex parts (parts.length - 2)).take 3 = "arm".toList then
          jsIndex parts (parts.length - 2) ++ '-' :: jsIndex parts (parts.length - 1)
        else jsIndex parts (parts.length - 1))
    else none
  else some (jsIndex parts (parts.length - 1))

/-- The `AVDDescriptor` constructor branch taken when only a name is
supplied (the decoder).  `platform` is recovered by the slice
`name.slice(api.length + 1, -architecture.length - 1)`. -/
def avdFromName (name : Str) : Option AVDDescriptor :=
  (decodedArch (splitH name)).map (fun architecture =>
    let api := decodedApi (splitH name)
    let platform :=
      (name.drop (api.length + 1)).take
        (name.length - (architecture.length + 1) - (api.length + 1))
    { api := api
      platform := platform
      architecture := architecture
      abi := mkAbi platform architecture
      name := name })

/-- `AVDDescriptor.avdName`: the device install name
`this.name + '-v' + version + '-wd-manager'`. -/
def avdName (desc : AVDDescriptor) (version : Str) : Str :=
  desc.name ++ '-' :: 'v' :: (version ++ "-wd-manager".toList)

/-- Inner helper `getSysImgTarget` of `getAndroidSDKTargets`: a platform
equal to `DEFAULT` case-insensitively is replaced by `android`, and the
target is `'sys-img-' + architecture + '-' + platform + '-' + level`. -/
def getSysImgTarget (architecture platform level : Str) : Str :=
  (if upperStr platform = "DEFAULT".toList then
    "sys-img-".toList ++ architecture ++ '-' :: ("android".toList ++ '-' :: level)
  else
    "sys-img-".toList ++ architecture ++ '-' :: (platform ++ '-' :: level))

/-- The base target list of `getAndroidSDKTargets` before old AVDs are
considered: one `'android-' + level` target per requested API level,
followed by one system-image target per (architecture, platform, level)
triple of the requested lists. -/
def baseTargets (apiLevels architectures platforms : List Str) : List Str :=
  apiLevels.map (fun level => "android-".toList ++ level) ++
    architectures.flatMap (fun architecture =>
      platforms.flatMap (fun platform =>
        apiLevels.map (fun level => getSysImgTarget architecture platform level)))

/-- One iteration of the `oldAVDs.forEach` loop of `getAndroidSDKTargets`:
decode the name, append the device's API target unless already present,
then append its system-image target unless already present.  `none` means
the decoder threw. -/
def addOldAVD (targets : List Str) (nm : Str) : Option (List Str) :=
  (avdFromName nm).map (fun avd =>
    let t1 := if avd.api ∈ targets then targets else targets ++ [avd.api]
    let sysImgTarget :=
      getSysImgTarget avd.architecture avd.platform (avd.api.drop ("android-".length))
    if sysImgTarget ∈ t1 then t1 else t1 ++ [sysImgTarget])

/-- The `oldAVDs.forEach` loop: process each old device name in order; a
decoder exception aborts the whole computation. -/
def addOldAVDs : List Str → List Str → Option (List Str)
  | targets, [] => some targets
  | targets, nm :: rest =>
    match addOldAVD targets nm with
    | none => none
    | some t2 => addOldAVDs t2 rest

/-- `getAndroidSDKTargets`: the base list for the requested API levels,
architectures and platforms, extended by the targets of pre-existing
devices. -/
def getAndroidSDKTargets
    (apiLevels architectures platforms oldAVDs : List Str) : Option (List Str) :=
  addOldAVDs (baseTargets apiLevels architectures platforms) oldAVDs

/-- A settled promise of the `q` library, observed as success or failure.
The promise values themselves are irrelevant to the pipeline. -/
abbrev PResult (ε : Type) := Except ε Unit

/-- One `ret = ret.then(() => func(x))` step of `sequentialForEach`: the
`then` callback runs only when the upstream promise is fulfilled; a
rejection propagates past the `then`. -/
def promiseChainStep {α ε : Type} (func : α → PResult ε)
    (ret : PResult ε) (x : α) : PResult ε :=
  match ret with
  | Except.ok _ => func x
  | Except.error e => Except.error e

/-- `sequentialForEach`: starting from the fulfilled promise `q(null)`,
chain `ret = ret.then(() => func(x))` over the array. -/
def sequentialForEach {α ε : Type} (array : List α) (func : α → PResult ε) : PResult ε :=
  array.foldl (promiseChainStep func) (Except.ok ())

/-- The items whose `func` invocation actually runs in
`sequentialForEach`: each `then` callback fires only when every earlier
operation succeeded, so the invoked items are the prefix up to and
including the first failing item. -/
def seqInvoked {α ε : Type} : List α → (α → PResult ε) → List α
  | [], _ => []
  | x :: xs, func =>
    match func x with
    | Except.error _ => [x]
    | Except.ok _ => x :: seqInvoked xs func

/-- A hardware configuration as parsed from `hardware.ini`: an ordered
key/value association list (the `ini` library yields one entry per key,
and `ini.stringify` writes the entries back in order). -/
abbrev HWConfig := List (Str × Str)

/-- JavaScript property assignment `config[k] = v` on a parsed `ini`
object: an existing key keeps its position and gets the new value, a new
key is appended at the end. -/
def setKey (config : HWConfig) (k v : Str) : HWConfig :=
  if ∃ q ∈ config, q.1 = k then
    config.map (fun q => if q.1 = k then (k, v) else q)
  else config ++ [(k, v)]

/-- The key `hw.keyboard` set by `configureAVDHardware`. -/
def hwKeyboardKey : Str := "hw.keyboard".toList

/-- The key `hw.battery` set by `configureAVDHardware`. -/
def hwBatteryKey : Str := "hw.battery".toList

/-- The key `hw.ramSize` set by `configureAVDHardware`. -/
def hwRamSizeKey : Str := "hw.ramSize".toList

/-- The three assignments of `configureAVDHardware` on the parsed
configuration (the numeric value `1024` is written by `ini.stringify` as
the text `1024`, which is also what re-parsing the file yields). -/
def configureAVDHardware (config : HWConfig) : HWConfig :=
  setKey (setKey (setKey config hwKeyboardKey ("yes".toList))
      hwBatteryKey ("yes".toList))
    hwRamSizeKey ("1024".toList)

/-- The whole editor on the file: a missing `hardware.ini` (the
`fs.stat` rejection handler) is replaced by the empty contents, whose
`ini.parse` is the empty configuration; the configured result is written
back.  `ini.parse` after `ini.stringify` recovers the same key/value
entries, so the file is identified with its parsed configuration. -/
def configureAVDHardwareFile (file : Option HWConfig) : HWConfig :=
  configureAVDHardware (file.getD [])

/-- Lookup of a key's value in a configuration (first entry wins, as for
a JavaScript object built by `ini.parse`). -/
def getVal (config : HWConfig) (k : Str) : Option Str :=
  (config.find? (fun q => decide (q.1 = k))).map (fun q => q.2)

/-- An event delivered to the handlers registered by
`runAndroidSDKCommand`: the child's `exit` event with its status code
(`null` when the child was terminated by a signal), or its `error`
event with a cause. -/
inductive PEvent where
  | exit (code : Option Int)
  | error (cause : Str)
deriving DecidableEq

/-- JavaScript truthiness of an exit code: `null` and `0` are falsy,
every other number is truthy. -/
def jsTruthy (code : Option Int) : Bool :=
  match code with
  | none => false
  | some n => n != 0

/-- The settlement of the deferred promise of `runAndroidSDKCommand`. -/
inductive Settlement where
  | resolved
  | exitError (code : Option Int)
  | spawnError (cause : Str)
deriving DecidableEq

/-- One event handler step of `runAndroidSDKCommand`: once `deferred` has
been nulled out (already settled), later events are ignored; otherwise an
`exit` event rejects with the code when it is truthy and resolves when it
is falsy, and an `error` event rejects with the cause. -/
def settleStep (deferred : Option Settlement) (e : PEvent) : Option Settlement :=
  match deferred with
  | some st => some st
  | none =>
    match e with
    | PEvent.exit code =>
      some (if jsTruthy code then Settlement.exitError code else Settlement.resolved)
    | PEvent.error cause => some (Settlement.spawnError cause)

/-- The settlement of `runAndroidSDKCommand`'s promise after a sequence
of child-process events. -/
def runDriver (events : List PEvent) : Option Settlement :=
  events.foldl settleStep none

/-- Promise `then` with both a fulfillment and a rejection handler, as in
`.then(noop, noop)` of `makeAVD`. -/
def thenHandlers {ε α β : Type} (p : Except ε α)
    (onOk : α → Except ε β) (onErr : ε → Except ε β) : Except ε β :=
  match p with
  | Except.ok a => onOk a
  | Except.error e => onErr e

/-- `makeAVD`, run against an oracle giving the outcome of each
`runAndroidSDKCommand` invocation (command name and argument list).
Returns the invocations that actually happen, in order, together with the
overall promise outcome.  The chain is
`delete.then(noop, noop).then(() => create)`: the second `then` callback
(which performs the create invocation) runs exactly when the
`.then(noop, noop)` stage is fulfilled. -/
def makeAVD {ε : Type} (run : Str → List Str → PResult ε)
    (desc : AVDDescriptor) (version : Str) :
    List (Str × List Str) × PResult ε :=
  let delArgs : List Str := ["avd".toList, "--name".toList, avdName desc version]
  let createArgs : List Str :=
    ["avd".toList, "--name".toList, avdName desc version,
     "--target".toList, desc.api, "--abi".toList, desc.abi]
  match thenHandlers (run ("delete".toList) delArgs)
      (fun _ => Except.ok ()) (fun _ => Except.ok ()) with
  | Except.error e => ([(("delete".toList), delArgs)], Except.error e)
  | Except.ok _ =>
    ([(("delete".toList), delArgs), (("create".toList), createArgs)],
      run ("create".toList) createArgs)

-- sanity checks against hand-evaluated JavaScript behaviour

example : splitH ("a-b".toList) = [['a'], ['b']] := by decide

example : containsV ("v7a".toList) = true := by decide

example : containsV ("x86".toList) = false := by decide

example :
    (avdFromName ("android-24-default-x86".toList)).map (fun d => d.platform)
      = some ("default".toList) := by decide

example :
    (avdFromName ("android-24-default-armeabi-v7a".toList)).map
        (fun d => d.architecture)
      = some ("armeabi-v7a".toList) := by decide

example : avdFromName ("v7a".toList) = none := by decide

example :
    (avdFromName ("x86".toList)).map (fun d => d.api)
      = some ("x86-undefined".toList) := by decide

example :
    getAndroidSDKTargets [("24".toList)] [("x86".toList)] [("default".toList)] []
      = some [("android-24".toList), ("sys-img-x86-android-24".toList)] := by decide

example :
    configureAVDHardwareFile none
      = [(hwKeyboardKey, "yes".toList), (hwBatteryKey, "yes".toList),
         (hwRamSizeKey, "1024".toList)] := by decide

-- lemmas about hyphen splitting

theorem splitH_ne_nil (x : Str) : splitH x ≠ [] := by
  cases x with
  | nil => simp [splitH]
  | cons c cs =>
    simp only [splitH]
    split <;> simp

theorem splitH_append_hyphen (x y : Str) :
    splitH (x ++ '-' :: y) = splitH x ++ splitH y := by
  induction x with
  | nil => simp [splitH]
  | cons c cs ih =>
    by_cases hc : c = '-'
    · simp [splitH, hc, ih]
    · obtain ⟨p, ps, hps⟩ : ∃ p ps, splitH cs = p :: ps := by
        rcases h : splitH cs with _ | ⟨p, ps⟩
        · exact absurd h (splitH_ne_nil cs)
        · exact ⟨p, ps, rfl⟩
      simp [splitH, hc, ih, hps]

theorem splitH_no_hyphen (x : Str) (h : '-' ∉ x) : splitH x = [x] := by
  induction x with
  | nil => simp [splitH]
  | cons c cs ih =>
    simp only [List.mem_cons, not_or] at h
    simp [splitH, Ne.symm h.1, ih h.2]

-- lemmas about JavaScript array indexing

theorem jsIndex_append_right (l1 l2 : List Str) (n : Nat) (h : l1.length ≤ n) :
    jsIndex (l1 ++ l2) n = jsIndex l2 (n - l1.length) := by
  simp [jsIndex, List.getElem?_append_right h]

theorem jsIndex_getLast (l : List Str) (h : l ≠ []) :
    jsIndex l (l.length - 1) = (l.getLast?).getD [] := by
  rcases List.exists_cons_of_ne_nil h with ⟨a, t, rfl⟩
  rw [List.getLast?_eq_getElem? (a :: t)]
  simp only [jsIndex]
  rcases h2 : (a :: t)[(a :: t).length - 1]? with _ | z
  · exact absurd h2 (by simp [List.getElem?_eq_none_iff])
  · simp

theorem jsIndex_concat (l : List Str) (z : Str) :
    jsIndex (l ++ [z]) ((l ++ [z]).length - 1) = z := by
  rw [jsIndex_getLast (l ++ [z]) (by simp), List.getLast?_concat]
  rfl

-- lemmas about the process driver

theorem foldl_settleStep_settled (events : List PEvent) (st : Settlement) :
    events.foldl settleStep (some st) = some st := by
  induction events with
  | nil => rfl
  | cons e rest ih => simpa [settleStep] using ih

theorem runDriver_extend (events more : List PEvent) (st : Settlement)
    (h : runDriver events = some st) : runDriver (events ++ more) = some st := by
  unfold runDriver at h ⊢
  rw [List.foldl_append, h, foldl_settleStep_settled]

/-- **C6.** The interactive process driver (`runAndroidSDKCommand`)
resolves exactly when the process exits with a zero numeric status code,
rejects carrying the exit code on a nonzero exit, rejects carrying the
underlying cause when the process cannot be started, and settles at most
once: any events after the first are ignored. -/
theorem runDriver_settlement_spec (c : Int) (cause : Str)
    (rest events more : List PEvent) (st : Settlement)
    (h : runDriver events = some st) :
    runDriver (PEvent.exit (some c) :: rest)
        = some (if c = 0 then Settlement.resolved else Settlement.exitError (some c))
      ∧ runDriver (PEvent.error cause :: rest) = some (Settlement.spawnError cause)
      ∧ runDriver (events ++ more) = some st := by
  refine ⟨?_, ?_, runDriver_extend events more st h⟩
  · show List.foldl settleStep (settleStep none (PEvent.exit (some c))) rest = _
    rcases eq_or_ne c 0 with hc | hc
    · subst hc
      simp [settleStep, jsTruthy, foldl_settleStep_settled]
    · simp [settleStep, jsTruthy, hc, foldl_settleStep_settled]
  · show List.foldl settleStep (settleStep none (PEvent.error cause)) rest = _
    simp [settleStep, foldl_settleStep_settled]

/-- Witness for C6 at concrete inputs: a zero exit resolves, and a later
`error` event cannot overwrite the settlement. -/
theorem runDriver_settlement_spec_witness :
    runDriver (PEvent.exit (some 0) :: [])
        = some (if (0 : Int) = 0 then Settlement.resolved
                else Settlement.exitError (some 0))
      ∧ runDriver (PEvent.error ("boom".toList) :: [])
        = some (Settlement.spawnError ("boom".toList))
      ∧ runDriver ([PEvent.exit (some 0)] ++ [PEvent.error ("late".toList)])
        = some Settlement.resolved :=
  runDriver_settlement_spec 0 ("boom".toList) [] [PEvent.exit (some 0)]
    [PEvent.error ("late".toList)] Settlement.resolved (by decide)

/-- **C10.** If the child's `exit` event fires with a falsy code — `null`
(signal termination) as well as the number zero — the driver's promise
resolves; rejection on exit happens exactly for truthy (nonzero numeric)
codes. -/
theorem runDriver_falsy_exit_resolves (code : Option Int) (rest : List PEvent) :
    runDriver (PEvent.exit none :: rest) = some Settlement.resolved
      ∧ runDriver (PEvent.exit code :: rest)
        = some (if jsTruthy code then Settlement.exitError code
                else Settlement.resolved) := by
  constructor
  · show List.foldl settleStep (settleStep none (PEvent.exit none)) rest = _
    simp [settleStep, jsTruthy, foldl_settleStep_settled]
  · show List.foldl settleStep (settleStep none (PEvent.exit code)) rest = _
    simp [settleStep, foldl_settleStep_settled]

/-- **C4.** `sequentialForEach` is sequential and fail-fast: when every
item of the first segment succeeds and `x` fails with `e`, the overall
result is the failure `e`, and the invoked items are exactly the first
segment followed by `x`, in collection order — items after `x` are never
invoked. -/
theorem sequentialForEach_fail_fast {α ε : Type} (l1 l2 : List α) (x : α)
    (func : α → PResult ε) (e : ε)
    (h1 : ∀ y ∈ l1, func y = Except.ok ())
    (h2 : func x = Except.error e) :
    sequentialForEach (l1 ++ x :: l2) func = Except.error e
      ∧ seqInvoked (l1 ++ x :: l2) func = l1 ++ [x] := by
  have habsorb : ∀ (l : List α),
      l.foldl (promiseChainStep func) (Except.error e) = Except.error e := by
    intro l
    induction l with
    | nil => rfl
    | cons z zs ih => simpa [promiseChainStep] using ih
  induction l1 with
  | nil =>
    constructor
    · simp only [List.nil_append, sequentialForEach, List.foldl_cons,
        promiseChainStep, h2]
      exact habsorb l2
    · simp [seqInvoked, h2]
  | cons y ys ih =>
    have hy : func y = Except.ok () := h1 y (by simp)
    have ih2 := ih (fun z hz => h1 z (by simp [hz]))
    constructor
    · simpa only [List.cons_append, sequentialForEach, List.foldl_cons,
        promiseChainStep, hy] using ih2.1
    · simp [seqInvoked, hy, ih2.2]

/-- Witness for C4: with items `[1, 2, 3]` and an operation failing on
`2`, items `1` and `2` are invoked, `3` is not, and the run fails with
item `2`'s error. -/
theorem sequentialForEach_fail_fast_witness :
    sequentialForEach ([1] ++ 2 :: [3])
        (fun n : Nat => if n = 2 then Except.error ("fail".toList) else Except.ok ())
        = Except.error ("fail".toList)
      ∧ seqInvoked ([1] ++ 2 :: [3])
        (fun n : Nat => if n = 2 then Except.error ("fail".toList) else Except.ok ())
        = [1] ++ [2] :=
  sequentialForEach_fail_fast [1] [3] 2
    (fun n : Nat => if n = 2 then Except.error ("fail".toList) else Except.ok ())
    ("fail".toList)
    (by intro y hy; simp only [List.mem_singleton] at hy; subst hy; rfl)
    (by rfl)

/-- Both constructor branches derive `abi` from the final `platform` and
`architecture` fields with the shared expression modelled by `mkAbi`. -/
theorem avdFromName_abi (nm : Str) (d : AVDDescriptor)
    (h : avdFromName nm = some d) : d.abi = mkAbi d.platform d.architecture := by
  unfold avdFromName at h
  cases h2 : decodedArch (splitH nm) with
  | none => rw [h2] at h; simp at h
  | some a =>
    rw [h2] at h
    simp only [Option.map_some] at h
    obtain rfl := (Option.some.injEq _ _).mp h
    rfl

/-- **C2.** The decoded architecture is the last hyphen token, unless the
second-to-last token starts with `arm` and the JavaScript regular
expression `v[0-9]+[a-z]+` tests true on the last token, in which case it
is the last two tokens rejoined with a hyphen. -/
theorem decode_architecture_rule (name : Str)
    (h : (avdFromName name).isSome = true) :
    (avdFromName name).map (fun d => d.architecture)
      = some
        (if containsV (jsIndex (splitH name) ((splitH name).length - 1)) = true
            ∧ (jsIndex (splitH name) ((splitH name).length - 2)).take 3 = "arm".toList
         then jsIndex (splitH name) ((splitH name).length - 2)
                ++ '-' :: jsIndex (splitH name) ((splitH name).length - 1)
         else jsIndex (splitH name) ((splitH name).length - 1)) := by
  by_cases hv : containsV (jsIndex (splitH name) ((splitH name).length - 1)) = true
  · by_cases hlen : 2 ≤ (splitH name).length
    · by_cases harm :
        (jsIndex (splitH name) ((splitH name).length - 2)).take 3 = "arm".toList
      · simp [avdFromName, decodedArch, hv, hlen, harm]
      · simp [avdFromName, decodedArch, hv, hlen, harm]
    · exfalso
      rw [avdFromName, decodedArch, if_pos hv, if_neg hlen] at h
      simp at h
  · simp [avdFromName, decodedArch, hv]

/-- Witness for C2: the name `android-24-default-armeabi-v7a` ends in an
`arm`-prefixed token followed by a `v7a` variant token, so its decoded
architecture is the two-token join (which here evaluates to
`armeabi-v7a`); the rule also covers plain trailing tokens such as
`x86`. -/
theorem decode_architecture_rule_witness :
    (avdFromName ("android-24-default-armeabi-v7a".toList)).map
        (fun d => d.architecture)
      = some
        (if containsV (jsIndex (splitH ("android-24-default-armeabi-v7a".toList))
              ((splitH ("android-24-default-armeabi-v7a".toList)).length - 1)) = true
            ∧ (jsIndex (splitH ("android-24-default-armeabi-v7a".toList))
                ((splitH ("android-24-default-armeabi-v7a".toList)).length - 2)).take 3
              = "arm".toList
         then jsIndex (splitH ("android-24-default-armeabi-v7a".toList))
                ((splitH ("android-24-default-armeabi-v7a".toList)).length - 2)
                ++ '-' :: jsIndex (splitH ("android-24-default-armeabi-v7a".toList))
                  ((splitH ("android-24-default-armeabi-v7a".toList)).length - 1)
         else jsIndex (splitH ("android-24-default-armeabi-v7a".toList))
                ((splitH ("android-24-default-armeabi-v7a".toList)).length - 1)) :=
  decode_architecture_rule ("android-24-default-armeabi-v7a".toList) (by decide)

/-- **C8.** The descriptor's `abi` is the architecture alone when the
platform equals `default` case-insensitively, and
`platform + '/' + architecture` otherwise — for descriptors built from
components as well as for decoded ones. -/
theorem abi_derivation (api p r nm : Str) (d : AVDDescriptor)
    (h : avdFromName nm = some d) :
    (avdFromComponents api p r).abi
        = (if upperStr p = upperStr ("default".toList) then r else p ++ '/' :: r)
      ∧ d.abi
        = (if upperStr d.platform = upperStr ("default".toList) then d.architecture
           else d.platform ++ '/' :: d.architecture) := by
  have hdef : upperStr ("default".toList) = "DEFAULT".toList := by decide
  constructor
  · show mkAbi p r = _
    rw [mkAbi, hdef]
  · rw [avdFromName_abi nm d h, mkAbi, hdef]

/-- Witness for C8 at a concrete decoded descriptor with the `default`
platform. -/
theorem abi_derivation_witness :
    (avdFromComponents ("android-24".toList) ("Default".toList) ("x86".toList)).abi
        = (if upperStr ("Default".toList) = upperStr ("default".toList)
           then ("x86".toList)
           else ("Default".toList) ++ '/' :: ("x86".toList))
      ∧ (AVDDescriptor.mk ("android-24".toList) ("default".toList) ("x86".toList)
          ("x86".toList) ("android-24-default-x86".toList)).abi
        = (if upperStr (AVDDescriptor.mk ("android-24".toList) ("default".toList)
              ("x86".toList) ("x86".toList)
              ("android-24-default-x86".toList)).platform
              = upperStr ("default".toList)
           then (AVDDescriptor.mk ("android-24".toList) ("default".toList)
              ("x86".toList) ("x86".toList)
              ("android-24-default-x86".toList)).architecture
           else (AVDDescriptor.mk ("android-24".toList) ("default".toList)
              ("x86".toList) ("x86".toList)
              ("android-24-default-x86".toList)).platform
              ++ '/' :: (AVDDescriptor.mk ("android-24".toList) ("default".toList)
                ("x86".toList) ("x86".toList)
                ("android-24-default-x86".toList)).architecture) :=
  abi_derivation ("android-24".toList) ("Default".toList) ("x86".toList)
    ("android-24-default-x86".toList)
    (AVDDescriptor.mk ("android-24".toList) ("default".toList) ("x86".toList)
      ("x86".toList) ("android-24-default-x86".toList))
    (by decide)

/-- **C9.** During `makeAVD`, the outcome of the preceding delete attempt
is ignored: whatever the delete command's result, the create command for
the same install name is invoked afterwards, and the overall result is
exactly the create command's outcome. -/
theorem makeAVD_ignores_delete_failure {ε : Type}
    (run : Str → List Str → PResult ε) (desc : AVDDescriptor) (version : Str) :
    (makeAVD run desc version).1
        = [(("delete".toList), ["avd".toList, "--name".toList, avdName desc version]),
           (("create".toList),
            ["avd".toList, "--name".toList, avdName desc version,
             "--target".toList, desc.api, "--abi".toList, desc.abi])]
      ∧ (makeAVD run desc version).2
        = run ("create".toList)
            ["avd".toList, "--name".toList, avdName desc version,
             "--target".toList, desc.api, "--abi".toList, desc.abi] := by
  rcases h : run ("delete".toList) ["avd".toList, "--name".toList, avdName desc version]
    with e | u
  · simp only [makeAVD, thenHandlers, h]
    exact ⟨trivial, trivial⟩
  · simp only [makeAVD, thenHandlers, h]
    exact ⟨trivial, trivial⟩

-- lemmas about JavaScript property assignment on a parsed configuration

theorem setKey_key_mem (c : HWConfig) (k v : Str) :
    ∃ q ∈ setKey c k v, q.1 = k := by
  unfold setKey
  split
  case isTrue h =>
    obtain ⟨q, hq, hqk⟩ := h
    refine ⟨(k, v), List.mem_map.mpr ⟨q, hq, by simp [hqk]⟩, rfl⟩
  case isFalse h => exact ⟨(k, v), by simp, rfl⟩

theorem setKey_all_val (c : HWConfig) (k v : Str) :
    ∀ q ∈ setKey c k v, q.1 = k → q.2 = v := by
  unfold setKey
  split
  case isTrue h =>
    intro q hq hqk
    obtain ⟨a, ha, rfl⟩ := List.mem_map.mp hq
    by_cases hak : a.1 = k
    · simp [hak]
    · simp only [if_neg hak] at hqk ⊢
      exact absurd hqk hak
  case isFalse h =>
    intro q hq hqk
    rcases List.mem_append.mp hq with hc | hone
    · exact absurd ⟨q, hc, hqk⟩ h
    · simp only [List.mem_singleton] at hone
      simp [hone]

theorem setKey_mem_preserved (c : HWConfig) (k k' v' : Str) (hne : k ≠ k')
    (hm : ∃ q ∈ c, q.1 = k) : ∃ q ∈ setKey c k' v', q.1 = k := by
  obtain ⟨q, hq, hqk⟩ := hm
  unfold setKey
  split
  case isTrue h =>
    refine ⟨q, List.mem_map.mpr ⟨q, hq, ?_⟩, hqk⟩
    rw [if_neg (by rw [hqk]; exact hne)]
  case isFalse h => exact ⟨q, List.mem_append.mpr (Or.inl hq), hqk⟩

theorem setKey_allval_preserved (c : HWConfig) (k v k' v' : Str) (hne : k ≠ k')
    (ha : ∀ q ∈ c, q.1 = k → q.2 = v) :
    ∀ q ∈ setKey c k' v', q.1 = k → q.2 = v := by
  unfold setKey
  split
  case isTrue h =>
    intro q hq hqk
    obtain ⟨a, haa, rfl⟩ := List.mem_map.mp hq
    by_cases hak : a.1 = k'
    · simp only [if_pos hak] at hqk
      exact absurd hqk.symm (by simpa using hne)
    · simp only [if_neg hak] at hqk ⊢
      exact ha a haa hqk
  case isFalse h =>
    intro q hq hqk
    rcases List.mem_append.mp hq with hc | hone
    · exact ha q hc hqk
    · simp only [List.mem_singleton] at hone
      subst hone
      exact absurd hqk.symm (by simpa using hne)

theorem setKey_id (c : HWConfig) (k v : Str)
    (hm : ∃ q ∈ c, q.1 = k) (ha : ∀ q ∈ c, q.1 = k → q.2 = v) :
    setKey c k v = c := by
  unfold setKey
  rw [if_pos hm]
  have : ∀ q ∈ c, (if q.1 = k then (k, v) else q) = id q := by
    intro q hq
    by_cases hqk : q.1 = k
    · have hv := ha q hq hqk
      rw [if_pos hqk, ← hv, ← hqk]
      rfl
    · simp [hqk]
  rw [List.map_congr_left this, List.map_id]

theorem filter_map_setKey (c : HWConfig) (k v k' : Str) (hne : k' ≠ k) :
    (c.map (fun q => if q.1 = k then (k, v) else q)).filter
        (fun q => decide (q.1 = k'))
      = c.filter (fun q => decide (q.1 = k')) := by
  induction c with
  | nil => rfl
  | cons a t ih =>
    have hkk : ¬(k = k') := fun h => hne (Eq.symm h)
    by_cases hak : a.1 = k
    · have h1 : decide (a.1 = k') = false := by
        simp only [hak, decide_eq_false_iff_not]
        exact hkk
      have h2 : decide ((k, v).1 = k') = false := by
        simp only [decide_eq_false_iff_not]
        exact hkk
      simp only [List.map_cons, if_pos hak, List.filter_cons, h1, h2]
      exact ih
    · simp only [List.map_cons, if_neg hak, List.filter_cons]
      rw [ih]

theorem setKey_filter_other (c : HWConfig) (k v k' : Str) (hne : k' ≠ k) :
    (setKey c k v).filter (fun q => decide (q.1 = k'))
      = c.filter (fun q => decide (q.1 = k')) := by
  unfold setKey
  split
  case isTrue h => exact filter_map_setKey c k v k' hne
  case isFalse h =>
    have h2 : decide ((k, v).1 = k') = false := by
      simp only [decide_eq_false_iff_not]
      exact fun hh => hne (Eq.symm hh)
    simp [List.filter_append, h2]

theorem getVal_of (c : HWConfig) (k v : Str)
    (hm : ∃ q ∈ c, q.1 = k) (ha : ∀ q ∈ c, q.1 = k → q.2 = v) :
    getVal c k = some v := by
  induction c with
  | nil => simp at hm
  | cons a t ih =>
    by_cases hak : a.1 = k
    · have hv := ha a (by simp) hak
      simp [getVal, List.find?_cons, hak, hv]
    · have hm' : ∃ q ∈ t, q.1 = k := by
        obtain ⟨q, hq, hqk⟩ := hm
        rcases List.mem_cons.mp hq with rfl | hqt
        · exact absurd hqk hak
        · exact ⟨q, hqt, hqk⟩
      have ih2 := ih hm' (fun q hq hqk => ha q (List.mem_cons.mpr (Or.inr hq)) hqk)
      simpa [getVal, List.find?_cons, hak] using ih2

/-- **C5.** The hardware config editor is idempotent and
frame-preserving: editing the file it just wrote changes nothing, the
three fixed keys come out as `hw.keyboard=yes`, `hw.battery=yes`,
`hw.ramSize=1024`, and the entries of every other key are exactly those
of the loaded configuration (an absent file counting as the empty
configuration). -/
theorem configureAVDHardware_idempotent_frame (file : Option HWConfig) (k : Str)
    (hk1 : k ≠ hwKeyboardKey) (hk2 : k ≠ hwBatteryKey) (hk3 : k ≠ hwRamSizeKey) :
    configureAVDHardwareFile (some (configureAVDHardwareFile file))
        = configureAVDHardwareFile file
      ∧ getVal (configureAVDHardwareFile file) hwKeyboardKey = some ("yes".toList)
      ∧ getVal (configureAVDHardwareFile file) hwBatteryKey = some ("yes".toList)
      ∧ getVal (configureAVDHardwareFile file) hwRamSizeKey = some ("1024".toList)
      ∧ (configureAVDHardwareFile file).filter (fun q => decide (q.1 = k))
        = (file.getD []).filter (fun q => decide (q.1 = k)) := by
  have hne1 : hwKeyboardKey ≠ hwBatteryKey := by decide
  have hne2 : hwKeyboardKey ≠ hwRamSizeKey := by decide
  have hne3 : hwBatteryKey ≠ hwRamSizeKey := by decide
  set c := file.getD [] with hc
  have hout : configureAVDHardwareFile file
      = setKey (setKey (setKey c hwKeyboardKey ("yes".toList))
          hwBatteryKey ("yes".toList)) hwRamSizeKey ("1024".toList) := rfl
  have m_kb : ∃ q ∈ configureAVDHardwareFile file, q.1 = hwKeyboardKey := by
    rw [hout]
    exact setKey_mem_preserved _ _ _ _ hne2
      (setKey_mem_preserved _ _ _ _ hne1 (setKey_key_mem c _ _))
  have a_kb : ∀ q ∈ configureAVDHardwareFile file,
      q.1 = hwKeyboardKey → q.2 = "yes".toList := by
    rw [hout]
    exact setKey_allval_preserved _ _ _ _ _ hne2
      (setKey_allval_preserved _ _ _ _ _ hne1 (setKey_all_val c _ _))
  have m_bat : ∃ q ∈ configureAVDHardwareFile file, q.1 = hwBatteryKey := by
    rw [hout]
    exact setKey_mem_preserved _ _ _ _ hne3 (setKey_key_mem _ _ _)
  have a_bat : ∀ q ∈ configureAVDHardwareFile file,
      q.1 = hwBatteryKey → q.2 = "yes".toList := by
    rw [hout]
    exact setKey_allval_preserved _ _ _ _ _ hne3 (setKey_all_val _ _ _)
  have m_ram : ∃ q ∈ configureAVDHardwareFile file, q.1 = hwRamSizeKey := by
    rw [hout]
    exact setKey_key_mem _ _ _
  have a_ram : ∀ q ∈ configureAVDHardwareFile file,
      q.1 = hwRamSizeKey → q.2 = "1024".toList := by
    rw [hout]
    exact setKey_all_val _ _ _
  refine ⟨?_, getVal_of _ _ _ m_kb a_kb, getVal_of _ _ _ m_bat a_bat,
    getVal_of _ _ _ m_ram a_ram, ?_⟩
  · show configureAVDHardware (configureAVDHardwareFile file)
      = configureAVDHardwareFile file
    unfold configureAVDHardware
    rw [setKey_id _ _ _ m_kb a_kb, setKey_id _ _ _ m_bat a_bat,
      setKey_id _ _ _ m_ram a_ram]
  · rw [hout, setKey_filter_other _ _ _ _ hk3, setKey_filter_other _ _ _ _ hk2,
      setKey_filter_other _ _ _ _ hk1]

/-- Witness for C5 at a concrete loaded configuration and an unrelated
key. -/
theorem configureAVDHardware_idempotent_frame_witness :
    configureAVDHardwareFile
          (some (configureAVDHardwareFile
            (some [(("hw.cpu.arch".toList), ("x86".toList))])))
        = configureAVDHardwareFile (some [(("hw.cpu.arch".toList), ("x86".toList))])
      ∧ getVal (configureAVDHardwareFile
            (some [(("hw.cpu.arch".toList), ("x86".toList))])) hwKeyboardKey
        = some ("yes".toList)
      ∧ getVal (configureAVDHardwareFile
            (some [(("hw.cpu.arch".toList), ("x86".toList))])) hwBatteryKey
        = some ("yes".toList)
      ∧ getVal (configureAVDHardwareFile
            (some [(("hw.cpu.arch".toList), ("x86".toList))])) hwRamSizeKey
        = some ("1024".toList)
      ∧ (configureAVDHardwareFile
            (some [(("hw.cpu.arch".toList), ("x86".toList))])).filter
          (fun q => decide (q.1 = "hw.cpu.arch".toList))
        = ((some [(("hw.cpu.arch".toList), ("x86".toList))] :
            Option HWConfig).getD []).filter
          (fun q => decide (q.1 = "hw.cpu.arch".toList)) :=
  configureAVDHardware_idempotent_frame
    (some [(("hw.cpu.arch".toList), ("x86".toList))]) ("hw.cpu.arch".toList)
    (by decide) (by decide) (by decide)

-- lemmas about the old-AVD extension loop of the target list builder

theorem cond_append_nodup (t : List Str) (x : Str) (h : t.Nodup) :
    (if x ∈ t then t else t ++ [x]).Nodup := by
  split
  case isTrue => exact h
  case isFalse hx => simp [List.nodup_append, h, hx]

theorem cond_append_mem_mono (t : List Str) (x y : Str) (h : y ∈ t) :
    y ∈ (if x ∈ t then t else t ++ [x]) := by
  split
  case isTrue => exact h
  case isFalse => exact List.mem_append.mpr (Or.inl h)

theorem cond_append_mem_self (t : List Str) (x : Str) :
    x ∈ (if x ∈ t then t else t ++ [x]) := by
  split
  case isTrue h => exact h
  case isFalse => simp

theorem addOldAVD_nodup (t t' : List Str) (nm : Str)
    (h : t.Nodup) (ha : addOldAVD t nm = some t') : t'.Nodup := by
  unfold addOldAVD at ha
  cases hd : avdFromName nm with
  | none => rw [hd] at ha; simp at ha
  | some avd =>
    rw [hd] at ha
    simp only [Option.map_some', Option.some.injEq] at ha
    subst ha
    exact cond_append_nodup _ _ (cond_append_nodup _ _ h)

theorem addOldAVD_mem_mono (t t' : List Str) (nm x : Str)
    (hx : x ∈ t) (ha : addOldAVD t nm = some t') : x ∈ t' := by
  unfold addOldAVD at ha
  cases hd : avdFromName nm with
  | none => rw [hd] at ha; simp at ha
  | some avd =>
    rw [hd] at ha
    simp only [Option.map_some', Option.some.injEq] at ha
    subst ha
    exact cond_append_mem_mono _ _ _ (cond_append_mem_mono _ _ _ hx)

theorem addOldAVD_adds (t t' : List Str) (nm : Str) (avd : AVDDescriptor)
    (hd : avdFromName nm = some avd) (ha : addOldAVD t nm = some t') :
    avd.api ∈ t'
      ∧ getSysImgTarget avd.architecture avd.platform
          (avd.api.drop ("android-".length)) ∈ t' := by
  unfold addOldAVD at ha
  rw [hd] at ha
  simp only [Option.map_some', Option.some.injEq] at ha
  subst ha
  exact ⟨cond_append_mem_mono _ _ _ (cond_append_mem_self _ _),
    cond_append_mem_self _ _⟩

theorem addOldAVDs_nodup : ∀ (names t l : List Str),
    t.Nodup → addOldAVDs t names = some l → l.Nodup := by
  intro names
  induction names with
  | nil =>
    intro t l h hrun
    simp only [addOldAVDs, Option.some.injEq] at hrun
    exact hrun ▸ h
  | cons nm rest ih =>
    intro t l h hrun
    simp only [addOldAVDs] at hrun
    cases ha : addOldAVD t nm with
    | none => rw [ha] at hrun; simp at hrun
    | some t2 =>
      rw [ha] at hrun
      exact ih t2 l (addOldAVD_nodup t t2 nm h ha) hrun

theorem addOldAVDs_mem_mono : ∀ (names t l : List Str) (x : Str),
    addOldAVDs t names = some l → x ∈ t → x ∈ l := by
  intro names
  induction names with
  | nil =>
    intro t l x hrun hx
    simp only [addOldAVDs, Option.some.injEq] at hrun
    exact hrun ▸ hx
  | cons nm rest ih =>
    intro t l x hrun hx
    simp only [addOldAVDs] at hrun
    cases ha : addOldAVD t nm with
    | none => rw [ha] at hrun; simp at hrun
    | some t2 =>
      rw [ha] at hrun
      exact ih t2 l x hrun (addOldAVD_mem_mono t t2 nm x hx ha)

theorem addOldAVDs_contains : ∀ (names t l : List Str) (nm : Str)
    (avd : AVDDescriptor), nm ∈ names → avdFromName nm = some avd →
    addOldAVDs t names = some l →
    avd.api ∈ l
      ∧ getSysImgTarget avd.architecture avd.platform
          (avd.api.drop ("android-".length)) ∈ l := by
  intro names
  induction names with
  | nil => intro t l nm avd hnm; simp at hnm
  | cons n rest ih =>
    intro t l nm avd hnm hdec hrun
    simp only [addOldAVDs] at hrun
    cases ha : addOldAVD t n with
    | none => rw [ha] at hrun; simp at hrun
    | some t2 =>
      rw [ha] at hrun
      rcases List.mem_cons.mp hnm with rfl | hrest
      · have hin := addOldAVD_adds t t2 nm avd hdec ha
        exact ⟨addOldAVDs_mem_mono rest t2 l _ hrun hin.1,
          addOldAVDs_mem_mono rest t2 l _ hrun hin.2⟩
      · exact ih t2 l nm avd hrest hdec hrun

theorem count_one_of_nodup_mem (l : List Str) (a : Str)
    (h : l.Nodup) (hm : a ∈ l) : l.count a = 1 := by
  induction l with
  | nil => simp at hm
  | cons b t ih =>
    rw [List.nodup_cons] at h
    rcases List.mem_cons.mp hm with rfl | hat
    · have h0 : t.count a = 0 := List.count_eq_zero.mpr h.1
      simp [List.count_cons, h0]
    · have hne : a ≠ b := fun he => h.1 (he ▸ hat)
      simp [List.count_cons, hne, ih h.2 hat]

/-- Counterexample for C3 as stated: the base part of the target list is
not de-duplicated, so requesting the API level `24` twice yields the
target `android-24` twice. -/
theorem targets_nodup_cex :
    getAndroidSDKTargets [("24".toList), ("24".toList)] [] [] []
        = some [("android-24".toList), ("android-24".toList)]
      ∧ ¬ ([("android-24".toList), ("android-24".toList)] : List Str).Nodup := by
  constructor
  · decide
  · decide

/-- **C3 (amended).** The old-AVD extension step of the target list
builder never introduces a duplicate: whenever the base list computed
from the requested API levels, architectures and platforms is
duplicate-free, the final output is duplicate-free. -/
theorem targets_nodup_amended
    (apiLevels architectures platforms oldAVDs l : List Str)
    (hbase : (baseTargets apiLevels architectures platforms).Nodup)
    (hrun : getAndroidSDKTargets apiLevels architectures platforms oldAVDs
      = some l) : l.Nodup :=
  addOldAVDs_nodup oldAVDs (baseTargets apiLevels architectures platforms) l
    hbase hrun

/-- Witness for the amended C3 at concrete inputs with one pre-existing
device of a different API level. -/
theorem targets_nodup_amended_witness :
    ([("android-24".toList), ("sys-img-x86-android-24".toList),
      ("android-25".toList), ("sys-img-x86-android-25".toList)] :
        List Str).Nodup :=
  targets_nodup_amended [("24".toList)] [("x86".toList)] [("default".toList)]
    [("android-25-default-x86".toList)]
    [("android-24".toList), ("sys-img-x86-android-24".toList),
     ("android-25".toList), ("sys-img-x86-android-25".toList)]
    (by decide) (by decide)

/-- Counterexample for C7 as stated: with a duplicated base list, the
pre-existing descriptor's API target occurs twice in the output, not
exactly once. -/
theorem old_avd_exactly_once_cex :
    getAndroidSDKTargets [("24".toList), ("24".toList)] [] []
        [("android-24-default-x86".toList)]
      = some [("android-24".toList), ("android-24".toList),
              ("sys-img-x86-android-24".toList)]
      ∧ ([("android-24".toList), ("android-24".toList),
          ("sys-img-x86-android-24".toList)] : List Str).count
          ("android-24".toList) ≠ 1 := by
  constructor
  · decide
  · decide

/-- **C7 (amended).** Provided the base target list is duplicate-free,
for every pre-existing device name given to the builder the output
contains the decoded descriptor's own API-level target and its own
system-image target, each exactly once. -/
theorem old_avd_targets_exactly_once
    (apiLevels architectures platforms oldAVDs l : List Str)
    (nm : Str) (avd : AVDDescriptor)
    (hbase : (baseTargets apiLevels architectures platforms).Nodup)
    (hrun : getAndroidSDKTargets apiLevels architectures platforms oldAVDs
      = some l)
    (hnm : nm ∈ oldAVDs) (hdec : avdFromName nm = some avd) :
    l.count avd.api = 1
      ∧ l.count (getSysImgTarget avd.architecture avd.platform
          (avd.api.drop ("android-".length))) = 1 := by
  have hnodup : l.Nodup :=
    addOldAVDs_nodup oldAVDs (baseTargets apiLevels architectures platforms) l
      hbase hrun
  have hmem := addOldAVDs_contains oldAVDs
    (baseTargets apiLevels architectures platforms) l nm avd hnm hdec hrun
  exact ⟨count_one_of_nodup_mem l _ hnodup hmem.1,
    count_one_of_nodup_mem l _ hnodup hmem.2⟩

/-- Witness for the amended C7: a pre-existing `android-25` device adds
`android-25` and `sys-img-x86-android-25`, each exactly once. -/
theorem old_avd_targets_exactly_once_witness :
    ([("android-24".toList), ("sys-img-x86-android-24".toList),
      ("android-25".toList), ("sys-img-x86-android-25".toList)] :
        List Str).count
        (AVDDescriptor.mk ("android-25".toList) ("default".toList)
          ("x86".toList) ("x86".toList)
          ("android-25-default-x86".toList)).api = 1
      ∧ ([("android-24".toList), ("sys-img-x86-android-24".toList),
          ("android-25".toList), ("sys-img-x86-android-25".toList)] :
            List Str).count
          (getSysImgTarget
            (AVDDescriptor.mk ("android-25".toList) ("default".toList)
              ("x86".toList) ("x86".toList)
              ("android-25-default-x86".toList)).architecture
            (AVDDescriptor.mk ("android-25".toList) ("default".toList)
              ("x86".toList) ("x86".toList)
              ("android-25-default-x86".toList)).platform
            ((AVDDescriptor.mk ("android-25".toList) ("default".toList)
              ("x86".toList) ("x86".toList)
              ("android-25-default-x86".toList)).api.drop
              ("android-".length))) = 1 :=
  old_avd_targets_exactly_once [("24".toList)] [("x86".toList)]
    [("default".toList)] [("android-25-default-x86".toList)]
    [("android-24".toList), ("sys-img-x86-android-24".toList),
     ("android-25".toList), ("sys-img-x86-android-25".toList)]
    ("android-25-default-x86".toList)
    (AVDDescriptor.mk ("android-25".toList) ("default".toList) ("x86".toList)
      ("x86".toList) ("android-25-default-x86".toList))
    (by decide) (by decide) (by decide) (by decide)

-- further indexing lemmas for the round-trip proof

theorem jsIndex_append_left (l1 l2 : List Str) (n : Nat) (h : n < l1.length) :
    jsIndex (l1 ++ l2) n = jsIndex l1 n := by
  simp [jsIndex, List.getElem?_append_left h]

theorem jsIndex_penult (l : List Str) (z : Str) (hl : l ≠ []) :
    jsIndex (l ++ [z]) ((l ++ [z]).length - 2) = (l.getLast?).getD [] := by
  have h1 : (l ++ [z]).length - 2 = l.length - 1 := by simp
  have h2 : l.length - 1 < l.length := by
    have := List.length_pos.mpr hl
    omega
  rw [h1, jsIndex_append_left l [z] _ h2, jsIndex_getLast l hl]

/-- Counterexample for C1 as stated: an `api` component that is not of
the two-token shape breaks the round trip — encoding
`("a", "default", "x86")` gives the name `a-default-x86`, which decodes
with `api = "a-default"` and an empty platform. -/
theorem roundtrip_cex :
    (avdFromName ((avdFromComponents ("a".toList) ("default".toList)
          ("x86".toList)).name)).map
        (fun d => (d.api, d.platform, d.architecture))
      ≠ some (("a".toList), ("default".toList), ("x86".toList)) := by
  decide

/-- **C1 (amended).** The round trip holds for every descriptor whose
`api` is two hyphen-free tokens joined by a hyphen, and whose
architecture is either (a) hyphen-free and not misdetected as an `arm`
variant — it is not the case that the `v<digits><letters>` test succeeds
on it while the platform's last hyphen token starts with `arm` — or
(b) exactly two hyphen-free tokens where the first starts with `arm` and
the second passes the `v<digits><letters>` test.  Decoding the encoded
name then reproduces `api`, `platform` (which may itself contain
hyphens) and `architecture`. -/
theorem roundtrip_amended (a0 a1 p r : Str)
    (h0 : '-' ∉ a0) (h1 : '-' ∉ a1)
    (hr : ('-' ∉ r
            ∧ ¬(containsV r = true
                ∧ (((splitH p).getLast?).getD []).take 3 = "arm".toList))
        ∨ (∃ r1 r2, r = r1 ++ '-' :: r2 ∧ '-' ∉ r1 ∧ '-' ∉ r2
            ∧ containsV r2 = true ∧ r1.take 3 = "arm".toList)) :
    (avdFromName ((avdFromComponents (a0 ++ '-' :: a1) p r).name)).map
        (fun d => (d.api, d.platform, d.architecture))
      = some ((a0 ++ '-' :: a1), p, r) := by
  have hname : (avdFromComponents (a0 ++ '-' :: a1) p r).name
      = (a0 ++ '-' :: a1) ++ '-' :: (p ++ '-' :: r) := rfl
  have hsplit_api : splitH (a0 ++ '-' :: a1) = [a0, a1] := by
    rw [splitH_append_hyphen, splitH_no_hyphen a0 h0, splitH_no_hyphen a1 h1]
    rfl
  have hparts0 : splitH ((avdFromComponents (a0 ++ '-' :: a1) p r).name)
      = [a0, a1] ++ (splitH p ++ splitH r) := by
    rw [hname, splitH_append_hyphen, hsplit_api, splitH_append_hyphen]
  have harch : decodedArch
      (splitH ((avdFromComponents (a0 ++ '-' :: a1) p r).name)) = some r := by
    rcases hr with ⟨hrh, hcond⟩ | ⟨r1, r2, hreq, hr1, hr2, hv2, harm⟩
    · have hsr : splitH r = [r] := splitH_no_hyphen r hrh
      have hshape : splitH ((avdFromComponents (a0 ++ '-' :: a1) p r).name)
          = ([a0, a1] ++ splitH p) ++ [r] := by
        rw [hparts0, hsr, List.append_assoc]
      have hlast : jsIndex
          (splitH ((avdFromComponents (a0 ++ '-' :: a1) p r).name))
          ((splitH ((avdFromComponents (a0 ++ '-' :: a1) p r).name)).length - 1)
          = r := by
        rw [hshape]
        exact jsIndex_concat _ _
      have hsndl : jsIndex
          (splitH ((avdFromComponents (a0 ++ '-' :: a1) p r).name))
          ((splitH ((avdFromComponents (a0 ++ '-' :: a1) p r).name)).length - 2)
          = ((splitH p).getLast?).getD [] := by
        rw [hshape, jsIndex_penult _ r (by simp)]
        rw [List.getLast?_append]
        rcases hgl : (splitH p).getLast? with _ | w
        · exact absurd (List.getLast?_eq_none_iff.mp hgl) (splitH_ne_nil p)
        · simp
      have hlen2 : 2 ≤
          (splitH ((avdFromComponents (a0 ++ '-' :: a1) p r).name)).length := by
        rw [hshape]
        simp
      unfold decodedArch
      rw [hlast, hsndl]
      by_cases hv : containsV r = true
      · have harmneg : ¬((((splitH p).getLast?).getD []).take 3 = "arm".toList) :=
          fun h => hcond ⟨hv, h⟩
        rw [if_pos hv, if_pos hlen2, if_neg harmneg]
      · rw [if_neg hv]
    · have hsr : splitH r = [r1, r2] := by
        rw [hreq, splitH_append_hyphen, splitH_no_hyphen r1 hr1,
          splitH_no_hyphen r2 hr2]
        rfl
      have hshape : splitH ((avdFromComponents (a0 ++ '-' :: a1) p r).name)
          = (([a0, a1] ++ splitH p) ++ [r1]) ++ [r2] := by
        rw [hparts0, hsr]
        simp
      have hlast : jsIndex
          (splitH ((avdFromComponents (a0 ++ '-' :: a1) p r).name))
          ((splitH ((avdFromComponents (a0 ++ '-' :: a1) p r).name)).length - 1)
          = r2 := by
        rw [hshape]
        exact jsIndex_concat _ _
      have hsndl : jsIndex
          (splitH ((avdFromComponents (a0 ++ '-' :: a1) p r).name))
          ((splitH ((avdFromComponents (a0 ++ '-' :: a1) p r).name)).length - 2)
          = r1 := by
        rw [hshape, jsIndex_penult _ r2 (by simp), List.getLast?_concat]
        rfl
      have hlen2 : 2 ≤
          (splitH ((avdFromComponents (a0 ++ '-' :: a1) p r).name)).length := by
        rw [hshape]
        simp
      unfold decodedArch
      rw [hlast, hsndl, if_pos hv2, if_pos hlen2, if_pos harm, hreq]
  have hapi : decodedApi
      (splitH ((avdFromComponents (a0 ++ '-' :: a1) p r).name))
      = a0 ++ '-' :: a1 := by
    rw [hparts0]
    simp [decodedApi, jsIndex]
  have hdrop : ((avdFromComponents (a0 ++ '-' :: a1) p r).name).drop
      ((a0 ++ '-' :: a1).length + 1) = p ++ '-' :: r := by
    rw [hname]
    have he : (a0 ++ '-' :: a1) ++ '-' :: (p ++ '-' :: r)
        = ((a0 ++ '-' :: a1) ++ ['-']) ++ (p ++ '-' :: r) := by simp
    have hlen : ((a0 ++ '-' :: a1) ++ ['-']).length
        = (a0 ++ '-' :: a1).length + 1 := by
      simp only [List.length_append, List.length_cons, List.length_nil]
    rw [he, ← hlen, List.drop_left]
  have hcount : ((avdFromComponents (a0 ++ '-' :: a1) p r).name).length
      - (r.length + 1) - ((a0 ++ '-' :: a1).length + 1) = p.length := by
    rw [hname]
    simp only [List.length_append, List.length_cons]
    omega
  have htake : (p ++ '-' :: r).take p.length = p := List.take_left p ('-' :: r)
  unfold avdFromName
  rw [harch, Option.map_some', Option.map_some']
  simp only [Option.some.injEq, Prod.mk.injEq]
  refine ⟨hapi, ?_, trivial⟩
  rw [hapi, hcount, hdrop, htake]

/-- Witness for the amended C1: the canonical descriptor
`(android-24, default, x86)` round-trips. -/
theorem roundtrip_amended_witness :
    (avdFromName ((avdFromComponents (("android".toList) ++ '-' :: ("24".toList))
          ("default".toList) ("x86".toList)).name)).map
        (fun d => (d.api, d.platform, d.architecture))
      = some ((("android".toList) ++ '-' :: ("24".toList)), ("default".toList),
          ("x86".toList)) :=
  roundtrip_amended ("android".toList) ("24".toList) ("default".toList)
    ("x86".toList) (by decide) (by decide)
    (Or.inl ⟨by decide, by decide⟩)
